import Mathlib

/-!
Verification development for the VulCNN preprocessing pipeline.

The development shallowly embeds the three Python modules of the repository:

* `ImageGeneration.py` — the centrality/embedding feature engine
  (`graph_extraction`, `calculate_centralities`, `extract_code_from_label`,
  `generate_channels`, `image_generation`, `write_to_pkl`, `process_files`);
* `joern_graph_gen.py` — the resumable parse/export orchestration around the
  external Joern tool (`process_file`, `joern_parse`, `joern_export` for both
  the pdg and the lineinfo_json representation, including the fragment merge);
* `normalization.py` — comment removal and the normalize step
  (`remove_comments`, `process_file`).

Numeric values are modelled with `ℚ` (centrality scores are exact rationals in
the idealised semantics; the claims under study compare symbolic expressions,
not floating-point roundings).  External collaborators (the sent2vec embedding
model, the Katz centrality primitive of the graph library, the clean_gadget
canonicalizer, the Joern tool itself) are modelled as explicit parameters or
as environment records describing their observable outcomes, exactly at the
call boundary the source uses.
-/

/-! ## Data model: graphs as loaded by `nx.drawing.nx_pydot.read_dot`

The dot files this pipeline consumes are the merged pdg artifacts, which
declare `digraph G`; `read_dot` therefore yields a `MultiDiGraph`: nodes in
file order, each node carrying an optional `label` attribute, and a list of
directed arcs that may contain parallel duplicates.  -/

structure PyGraph where
  /-- Nodes in stable iteration (insertion) order, each with its optional
  `label` attribute; node identifiers are unique in a graph. -/
  nodes : List (String × Option String)
  /-- Directed arcs `(src, dst)`, with multiplicity (parallel arcs allowed). -/
  edges : List (String × String)
deriving DecidableEq

def node_ids (g : PyGraph) : List String := g.nodes.map Prod.fst

/-- `nx.get_node_attributes(graph, "label")`: the sub-dict of nodes that carry
a `label` attribute, in the graph's stable node iteration order. -/
def labelsDict (g : PyGraph) : List (String × String) :=
  g.nodes.filterMap (fun p => p.2.map (fun l => (p.1, l)))

def out_deg (g : PyGraph) (v : String) : Nat :=
  (g.edges.filter (fun e => e.1 = v)).length

def in_deg (g : PyGraph) (v : String) : Nat :=
  (g.edges.filter (fun e => e.2 = v)).length

/-- `nx.degree_centrality` applied to the loaded graph.  On a directed
(multi)graph networkx's `G.degree` is in-degree plus out-degree, counting
parallel arcs; each degree is scaled by `1/(n-1)`, and a graph with at most
one node maps every node to `1`. -/
def degree_centrality (g : PyGraph) : List (String × ℚ) :=
  if (node_ids g).length ≤ 1 then (node_ids g).map (fun v => (v, 1))
  else (node_ids g).map (fun v =>
    (v, ((out_deg g v + in_deg g v : ℚ)) * (1 / (((node_ids g).length : ℚ) - 1))))

/-- Predecessors of `v` (sources of arcs into `v`), i.e. neighbours of `v`
in the reversed graph that `nx.closeness_centrality` walks for a directed
input. -/
def preds (g : PyGraph) (v : String) : List String :=
  (g.edges.filter (fun e => e.2 = v)).map Prod.fst

/-- Layered breadth-first search accumulating shortest-path distances; the
fuel argument (instantiated with the node count) bounds the number of
layers. -/
def bfs_layer (g : PyGraph) : Nat → List (String × Nat) → List String → Nat → List (String × Nat)
  | 0, dists, _, _ => dists
  | fuel + 1, dists, frontier, d =>
      let nxt := ((frontier.map (preds g)).flatten.filter
        (fun w => (dists.lookup w).isNone)).dedup
      if nxt = [] then dists
      else bfs_layer g fuel (dists ++ nxt.map (fun w => (w, d + 1))) nxt (d + 1)

/-- Shortest-path distances towards `u` (distances from `u` in the reversed
graph), as used by networkx closeness centrality on a directed graph. -/
def dists_to (g : PyGraph) (u : String) : List (String × Nat) :=
  bfs_layer g (node_ids g).length [(u, 0)] [u] 0

/-- `nx.closeness_centrality` applied to the loaded (directed) graph:
for each node `u`, with `sp` the incoming-distance map, `r = |sp|` and
`totsp = Σ sp`, the score is `((r-1)/totsp) * ((r-1)/(n-1))` (the improved
Wasserman-Faust form, networkx's default), and `0` when `totsp = 0` or
`n ≤ 1`. -/
def closeness_centrality (g : PyGraph) : List (String × ℚ) :=
  g.nodes.map (fun p =>
    let sp := dists_to g p.1
    let totsp : Nat := (sp.map Prod.snd).sum
    let n := (node_ids g).length
    (p.1,
      if 0 < totsp ∧ 1 < n then
        (((sp.length : ℚ) - 1) / (totsp : ℚ)) * (((sp.length : ℚ) - 1) / ((n : ℚ) - 1))
      else 0))

/-- `nx.DiGraph(graph)`: same nodes (with attributes), direction kept,
parallel arcs collapsed. -/
def nxDiGraph (g : PyGraph) : PyGraph :=
  { nodes := g.nodes, edges := g.edges.dedup }

structure Centralities where
  degree : List (String × ℚ)
  closeness : List (String × ℚ)
  katz : List (String × ℚ)
deriving DecidableEq

/-- `calculate_centralities`: degree and closeness centrality are computed on
`graph` exactly as loaded, Katz centrality on `nx.DiGraph(graph)`.  The Katz
primitive is an external graph-library collaborator and is passed in as a
parameter `katz`. -/
def calculate_centralities (katz : PyGraph → List (String × ℚ)) (g : PyGraph) :
    Centralities :=
  { degree := degree_centrality g
    closeness := closeness_centrality g
    katz := katz (nxDiGraph g) }

/-! ## `extract_code_from_label` and `generate_channels` -/

/-- Prefix of the list before the first occurrence of the two-character
sequence `\` `n` (Python: `.split("\\n")[0]`). -/
def take_before_nl : List Char → List Char
  | [] => []
  | c :: cs => if c = '\\' ∧ cs.head? = some 'n' then [] else c :: take_before_nl cs

/-- Python `.replace("static void", "void")`: replace every (left-to-right,
non-overlapping) occurrence. -/
def replace_static_void : List Char → List Char
  | [] => []
  | c :: cs =>
      if ("static void".data).isPrefixOf (c :: cs) then
        "void".data ++ replace_static_void (cs.drop 10)
      else c :: replace_static_void cs
termination_by l => l.length
decreasing_by
  · simp only [List.length_cons]
    have h := List.length_drop 10 cs
    omega
  · simp

/-- `extract_code_from_label`: `label[label.index(",") + 1 : -2]`, first
`\n`-separated line, `static void` collapsed to `void`.  A label without a
comma raises `ValueError` in Python, modelled as `none`. -/
def extract_code_from_label (label : String) : Option String :=
  let l := label.data
  if ',' ∈ l then
    let i := l.findIdx (· == ',')
    let sliced := (l.take (l.length - 2)).drop (i + 1)
    some ⟨replace_static_void (take_before_nl sliced)⟩
  else none

/-- Elementwise scaling `centrality * line_vec` of an embedding vector. -/
def scale_vec (c : ℚ) (v : List ℚ) : List ℚ := v.map (fun x => c * x)

/-- The three channel lists, in the key order of the `calculate_centralities`
dict literal: degree, closeness, katz. -/
abbrev Channels := List (List ℚ) × List (List ℚ) × List (List ℚ)

/-- The node loop of `generate_channels` over the label dict.  Per node:
extract the code snippet (failure aborts the whole call), embed it once, then
look up and apply each of the three centrality scores (a missing key aborts
the whole call, as a Python `KeyError` would). -/
def gen_chan_aux (cent : Centralities) (embed : String → List ℚ) :
    List (String × String) → Option Channels
  | [] => some ([], [], [])
  | (node, lbl) :: rest =>
      match extract_code_from_label lbl with
      | none => none
      | some code =>
          let v := embed code
          match cent.degree.lookup node, cent.closeness.lookup node,
              cent.katz.lookup node with
          | some cd, some cc, some ck =>
              match gen_chan_aux cent embed rest with
              | none => none
              | some (ds, cs, ks) =>
                  some (scale_vec cd v :: ds, scale_vec cc v :: cs, scale_vec ck v :: ks)
          | _, _, _ => none

/-- `generate_channels`: iterate the graph's label dict in stable order and
return the 3-tuple of channels. -/
def generate_channels (g : PyGraph) (cent : Centralities)
    (embed : String → List ℚ) : Option Channels :=
  gen_chan_aux cent embed (labelsDict g)

/-- `image_generation`: graph extraction (an unparsable dot file is modelled
as `none`), centralities, channels; any exception yields `None`. -/
def image_generation (katz : PyGraph → List (String × ℚ))
    (embed : String → List ℚ) (parsed : Option PyGraph) : Option Channels :=
  match parsed with
  | none => none
  | some g => generate_channels g (calculate_centralities katz g) embed

/-- Number of `model.embed_sentence` invocations `generate_channels` performs
on a label dict: one per node until the first failing node (embedding happens
after snippet extraction and before the centrality lookups). -/
def embed_count (cent : Centralities) : List (String × String) → Nat
  | [] => 0
  | (node, lbl) :: rest =>
      match extract_code_from_label lbl with
      | none => 0
      | some _ =>
          match cent.degree.lookup node, cent.closeness.lookup node,
              cent.katz.lookup node with
          | some _, some _, some _ => 1 + embed_count cent rest
          | _, _, _ => 1

/-- Observable behaviour of one `write_to_pkl` worker call. -/
structure WorkerTrace where
  /-- Whether `graph_extraction` (hence `image_generation`) was entered. -/
  parsedGraph : Bool
  /-- Number of embedding-model invocations. -/
  embedCalls : Nat
  /-- The serialized FeatureTensor, when one was produced and written. -/
  written : Option Channels
deriving DecidableEq

/-- `write_to_pkl`: skip immediately when the stem is in `existing_files`;
otherwise run `image_generation` and write the resulting channels (if any). -/
def write_to_pkl (katz : PyGraph → List (String × ℚ)) (embed : String → List ℚ)
    (parsed : Option PyGraph) (stem : String) (existing : List String) :
    WorkerTrace :=
  if stem ∈ existing then ⟨false, 0, none⟩
  else
    { parsedGraph := true
      embedCalls :=
        match parsed with
        | none => 0
        | some g => embed_count (calculate_centralities katz g) (labelsDict g)
      written := image_generation katz embed parsed }

/-- Worker loop of `process_files` over input stems: `existing` is the set of
output stems computed once at the start of the run; each produced tensor is
added to the output directory under its stem. -/
def run_feature_aux (katz : PyGraph → List (String × ℚ)) (embed : String → List ℚ)
    (parse : String → Option PyGraph) (existing : List String) :
    List String → List (String × Channels) → List (String × Channels)
  | [], acc => acc
  | stem :: rest, acc =>
      match (write_to_pkl katz embed (parse stem) stem existing).written with
      | some a => run_feature_aux katz embed parse existing rest (acc ++ [(stem, a)])
      | none => run_feature_aux katz embed parse existing rest acc

/-- `process_files`: glob the inputs, compute `existing_files` from the output
directory once, then run every worker.  (The pool's completion order does not
affect which artifacts exist afterwards; the model runs workers in input
order.) -/
def process_files (katz : PyGraph → List (String × ℚ)) (embed : String → List ℚ)
    (parse : String → Option PyGraph) (inputs : List String)
    (fs : List (String × Channels)) : List (String × Channels) :=
  run_feature_aux katz embed parse (fs.map Prod.fst) inputs fs

/-- Modelled from the spec's words for claim C5: degree centrality over an
*undirected view* of the same node/edge set — each node's degree is its number
of distinct neighbours when arc direction is forgotten, scaled by `1/(n-1)`
(nodes map to `1` when `n ≤ 1`).  This is the comparison definition for the
refinement claim; the source-side definition is `degree_centrality` above. -/
def degree_centrality_undirected (g : PyGraph) : List (String × ℚ) :=
  if (node_ids g).length ≤ 1 then (node_ids g).map (fun v => (v, 1))
  else (node_ids g).map (fun v =>
    (v, (((node_ids g).filter (fun u => (v, u) ∈ g.edges ∨ (u, v) ∈ g.edges)).length : ℚ)
      * (1 / (((node_ids g).length : ℚ) - 1))))

/-! ## `joern_graph_gen.py`: parse/export orchestration

The external tool invocations are modelled by environment records describing
their observable outcomes; the record file is a list of stems in append
order. -/

/-- Python `content.replace(pat, "", 1)`: delete the first (leftmost)
occurrence of `pat`, if any. -/
def replaceFirst (pat : List Char) : List Char → List Char
  | [] => []
  | c :: cs =>
      if pat.isPrefixOf (c :: cs) then (c :: cs).drop pat.length
      else c :: replaceFirst pat cs

/-- Python `content.rsplit("\x7d", 1)[0]`: everything before the last
`\x7d`, or the whole string if none occurs. -/
def beforeLastBrace (l : List Char) : List Char :=
  if '\x7d' ∈ l then ((l.reverse.dropWhile (fun c => c != '\x7d')).drop 1).reverse
  else l

/-- The outer wrapper line of a dot digraph, `digraph G \x7b`. -/
def dotHeader : List Char := "digraph G \x7b".data

/-- Strip a fragment's outer wrapper as `joern_export` does: remove the first
`digraph G \x7b` and cut at the last `\x7d`. -/
def stripFragment (content : List Char) : List Char :=
  beforeLastBrace (replaceFirst dotHeader content)

/-- One named subgraph block of the merged artifact:
`subgraph cluster_<stem> \x7b\n<body>\n\x7d\n`. -/
def subgraphBlock (stem : String) (body : List Char) : List Char :=
  ("subgraph cluster_" ++ stem ++ " \x7b\n").data ++ body ++ "\n\x7d\n".data

/-- The merge loop of `joern_export` (pdg branch): write `digraph G \x7b\n`,
then, per fragment, the subgraph header keyed by the fragment's stem, the
stripped content, and the closing lines; finally the top-level `\x7d`. -/
def mergePdg (frags : List (String × List Char)) : List Char :=
  "digraph G \x7b\n".data
    ++ (frags.map (fun p =>
          ("subgraph cluster_" ++ p.1 ++ " \x7b\n").data
            ++ stripFragment p.2 ++ "\n\x7d\n".data)).flatten
    ++ ['\x7d']

/-- Unmatched-wrapper-token measure: count of `\x7b` minus count of `\x7d`. -/
def braceDelta (l : List Char) : Int :=
  (l.count '\x7b' : Int) - (l.count '\x7d' : Int)

/-- Read every fragment file in order; the first read error (a fragment whose
content is `none`) aborts the whole merge, as the Python exception does. -/
def readAll : List (String × Option (List Char)) → Option (List (String × List Char))
  | [] => some []
  | (stem, c?) :: rest =>
      match c? with
      | none => none
      | some c =>
          match readAll rest with
          | none => none
          | some cs => some ((stem, c) :: cs)

/-- Environment for one pdg export item: whether the expected merged artifact
already exists on disk (never consulted by the code), whether the
`joern-export` command succeeds, whether its output path is a directory, and
the `.dot` fragments found there (`none` content = read raises). -/
structure ExportEnv where
  artifactExists : Bool
  toolOk : Bool
  outIsDir : Bool
  frags : List (String × Option (List Char))
deriving DecidableEq

/-- Observable outcome of `joern_export` on a pdg item. -/
structure ExportOutcome where
  /-- The external `joern-export` command was run. -/
  toolRan : Bool
  /-- Return value of `joern_export`. -/
  success : Bool
  /-- `shutil.rmtree` deleted the fragment directory. -/
  dirDeleted : Bool
  /-- The complete merged artifact, when the merge ran to the end (on a merge
  exception only a partial file may remain, never a complete merge). -/
  merged : Option (List Char)
deriving DecidableEq

/-- `joern_export`, pdg branch: run the tool unconditionally, then — if the
output is a directory with at least one fragment — merge; the directory is
deleted only after a fully successful merge, and any fragment read error
returns failure with the directory intact. -/
def joern_export_pdg (env : ExportEnv) : ExportOutcome :=
  if env.toolOk = false then ⟨true, false, false, none⟩
  else if env.outIsDir = false then ⟨true, true, false, none⟩
  else if env.frags = [] then ⟨true, false, false, none⟩
  else
    match readAll env.frags with
    | none => ⟨true, false, false, none⟩
    | some contents => ⟨true, true, true, some (mergePdg contents)⟩

/-- Result of one `process_file` wrapper call around a stage function. -/
structure StepResult where
  /-- `process_func` was invoked (the stem was not in the record). -/
  funcInvoked : Bool
  /-- The external tool command was actually run. -/
  toolRan : Bool
  /-- Record file content after the call. -/
  record' : List String
deriving DecidableEq

/-- `process_file`: skip when the stem already appears in the record file;
otherwise run the stage function (whose observable outcome is the pair
`(toolRan, success)`) and append the stem on success. -/
def process_file_step (record : List String) (stem : String)
    (res : Bool × Bool) : StepResult :=
  if stem ∈ record then ⟨false, false, record⟩
  else ⟨true, res.1, if res.2 then record ++ [stem] else record⟩

/-- Environment for one parse item: whether `outdir/name.bin` already exists
and whether `joern-parse` succeeds. -/
structure ParseEnv where
  outExists : Bool
  toolOk : Bool
deriving DecidableEq

/-- `joern_parse`: if the output file already exists, return success without
running the tool; otherwise run `joern-parse`. -/
def joern_parse (env : ParseEnv) : Bool × Bool :=
  if env.outExists then (false, true) else (true, env.toolOk)

/-- The parse stage step for one stem: `process_file` around `joern_parse`. -/
def parse_step (record : List String) (stem : String) (env : ParseEnv) :
    StepResult :=
  process_file_step record stem (joern_parse env)

/-- Result of one export-stage step for one stem. -/
structure ExportStepResult where
  funcInvoked : Bool
  toolRan : Bool
  record' : List String
  dirDeleted : Bool
  merged : Option (List Char)
deriving DecidableEq

/-- The export stage step for one stem (pdg): `process_file` around
`joern_export`. -/
def export_step (record : List String) (stem : String) (env : ExportEnv) :
    ExportStepResult :=
  if stem ∈ record then ⟨false, false, record, false, none⟩
  else
    let o := joern_export_pdg env
    ⟨true, o.toolRan, if o.success then record ++ [stem] else record,
      o.dirDeleted, o.merged⟩

/-- Environment for one lineinfo_json export item: whether the shared
`graph-for-funcs.sc` script exists and whether the scripted tool call
succeeds. -/
structure JsonEnv where
  scriptExists : Bool
  toolOk : Bool
deriving DecidableEq

/-- `joern_export`, lineinfo_json branch: a missing script file is reported
as failure for this item (return `False`) without invoking the tool;
otherwise the scripted invocation runs. -/
def joern_export_json (env : JsonEnv) : Bool × Bool :=
  if env.scriptExists then (true, env.toolOk) else (false, false)

/-- One lineinfo_json export step: `process_file` around `joern_export`. -/
def json_step (record : List String) (stem : String) (env : JsonEnv) :
    StepResult :=
  process_file_step record stem (joern_export_json env)

/-- The export batch over a list of stems in the lineinfo_json configuration:
every stem is handed to `process_file`; the result is the final record and
the number of items iterated (the pool never aborts early). -/
def runJsonBatch (env : JsonEnv) : List String → List String → List String × Nat
  | record, [] => (record, 0)
  | record, stem :: rest =>
      let r := json_step record stem env
      let out := runJsonBatch env r.record' rest
      (out.1, out.2 + 1)

/-! ## `normalization.py`: comment removal and the normalize step

`re.sub` scans the subject left to right, replacing non-overlapping leftmost
matches; the lookbehind `(?<!:)` inspects the character of the original
string immediately before a match start. -/

/-- Scan of `re.sub(r"(?<!:)//.*", "", code)`: `prev` is the original
character preceding the current position.  On a match (`//` not preceded by
`:`), `.` does not cross a newline, so the match extends to the end of the
line and scanning resumes at the newline (where no new match can start). -/
def subLineGo : Option Char → List Char → List Char
  | _, [] => []
  | prev, c :: cs =>
      if c = '/' ∧ cs.head? = some '/' ∧ prev ≠ some ':' then
        subLineGo none (cs.dropWhile (fun d => d != '\n'))
      else c :: subLineGo (some c) cs
termination_by _ l => l.length
decreasing_by
  · have h := (List.dropWhile_sublist (l := cs) (fun d => d != '\n')).length_le
    simp only [List.length_cons]
    omega
  · simp

/-- First regex pass of `remove_comments`. -/
def subLineComments (l : List Char) : List Char := subLineGo none l

/-- Modelled from the spec's words for claim C8 (single-line rule): a line is
truncated at its first `//` marker not immediately preceded by a colon; the
rest of the line is deleted. -/
def lineCommentRule : Option Char → List Char → List Char
  | _, [] => []
  | prev, c :: cs =>
      if c = '/' ∧ cs.head? = some '/' ∧ prev ≠ some ':' then []
      else c :: lineCommentRule (some c) cs

/-- Whether the two-character sequence `*` `/` occurs in the list. -/
def hasSS : List Char → Bool
  | [] => false
  | c :: cs => (c = '*' ∧ cs.head? = some '/' : Bool) || hasSS cs

/-- Split at the first occurrence of `*` `/`: the part before it and the part
after it. -/
def splitAtStarSlash : List Char → Option (List Char × List Char)
  | [] => none
  | c :: cs =>
      if c = '*' ∧ cs.head? = some '/' then some ([], cs.drop 1)
      else (splitAtStarSlash cs).map (fun p => (c :: p.1, p.2))

theorem splitAtStarSlash_shorter : ∀ (l a b : List Char),
    splitAtStarSlash l = some (a, b) → b.length + 2 ≤ l.length := by
  intro l
  induction l with
  | nil => intro a b h; simp [splitAtStarSlash] at h
  | cons c cs ih =>
      intro a b h
      rw [splitAtStarSlash] at h
      by_cases hc : c = '*' ∧ cs.head? = some '/'
      · rw [if_pos hc] at h
        rcases cs with _ | ⟨d, ds⟩
        · simp at hc
        · simp only [List.drop_one, List.tail_cons, Option.some.injEq,
            Prod.mk.injEq] at h
          obtain ⟨-, hb⟩ := h
          simp [← hb]
      · rw [if_neg hc] at h
        rcases h2 : splitAtStarSlash cs with _ | ⟨p1, p2⟩
        · rw [h2] at h; simp at h
        · rw [h2] at h
          simp only [Option.map_some', Option.some.injEq, Prod.mk.injEq] at h
          obtain ⟨-, hb⟩ := h
          have hlen := ih p1 p2 h2
          simp only [List.length_cons, ← hb]
          omega

/-- Scan of `re.sub(r"/\*[\s\S]*?\*/", "", code)`: at each `/*`, the
non-greedy body matches up to the nearest following `*/` and scanning resumes
after it; without a closing `*/` there is no match at this `/*` and scanning
resumes at the `*`. -/
def subBlockComments : List Char → List Char
  | [] => []
  | c :: cs =>
      if c = '/' ∧ cs.head? = some '*' then
        match h : splitAtStarSlash (cs.drop 1) with
        | some p => subBlockComments p.2
        | none => c :: subBlockComments cs
      else c :: subBlockComments cs
termination_by l => l.length
decreasing_by
  · have hlen := splitAtStarSlash_shorter (cs.drop 1) p.1 p.2 (by rw [h])
    have hd := List.length_drop 1 cs
    simp only [List.length_cons]
    omega
  · simp
  · simp

/-- Python `str.isspace` for the ASCII whitespace characters that
`str.strip()` removes. -/
def pyIsSpace (c : Char) : Bool :=
  c = ' ' ∨ c = '\t' ∨ c = '\n' ∨ c = '\r' ∨ c = '\x0b' ∨ c = '\x0c'

/-- Python `str.strip()`. -/
def pyStrip (l : List Char) : List Char :=
  ((l.dropWhile pyIsSpace).reverse.dropWhile pyIsSpace).reverse

/-- `remove_comments`: first the single-line pass, then the block pass, then
`strip()`. -/
def remove_comments (code : String) : String :=
  ⟨pyStrip (subBlockComments (subLineComments code.data))⟩

/-- Python `str.splitlines()` on `\n`-separated text.  `process_file` only
splits the output of `remove_comments`, which is stripped of leading and
trailing whitespace, so splitting on `\n` agrees with `splitlines`. -/
def pySplitlines (l : List Char) : List String :=
  (l.splitOn '\n').map (fun x => (⟨x⟩ : String))

/-- Python `"\n".join(lines)`. -/
def joinLinesNl (ls : List String) : String :=
  ⟨(ls.map String.data).intersperse ['\n'] |>.flatten⟩

/-- Environment of one normalize `process_file` call: whether the read
succeeds, and the external `clean_gadget` collaborator (`none` models an
exception it raises). -/
structure NormEnv where
  readOk : Bool
  clean : List String → Option (List String)

/-- Update (or create) the entry for `path` in an association-list file
system. -/
def fsWrite (fs : List (String × String)) (path content : String) :
    List (String × String) :=
  if fs.any (fun p => p.1 = path) then
    fs.map (fun p => if p.1 = path then (p.1, content) else p)
  else fs ++ [(path, content)]

/-- The normalize `process_file`: read the file, `remove_comments`, split
into lines, `clean_gadget`, and only then open the file for writing and
write the joined result.  Any failure before the write leaves the file
system unchanged (the surrounding `try`/`except` logs and returns). -/
def process_file_norm (env : NormEnv) (fs : List (String × String))
    (path : String) : List (String × String) :=
  match (if env.readOk then fs.lookup path else none) with
  | none => fs
  | some code =>
      let stripped := remove_comments code
      match env.clean (pySplitlines stripped.data) with
      | none => fs
      | some cleaned => fsWrite fs path (joinLinesNl cleaned)

/-! ## Theorems -/

theorem gen_chan_aux_shape (cent : Centralities) (embed : String → List ℚ)
    (D : Nat) (hD : ∀ s, (embed s).length = D) :
    ∀ (ls : List (String × String)) (d c k : List (List ℚ)),
      gen_chan_aux cent embed ls = some (d, c, k) →
      (d.length = ls.length ∧ c.length = ls.length ∧ k.length = ls.length) ∧
      (∀ v ∈ d, v.length = D) ∧ (∀ v ∈ c, v.length = D) ∧
      (∀ v ∈ k, v.length = D) := by
  intro ls
  induction ls with
  | nil =>
      intro d c k h
      rw [gen_chan_aux] at h
      simp only [Option.some.injEq, Prod.mk.injEq] at h
      obtain ⟨hd, hc, hk⟩ := h
      subst hd; subst hc; subst hk
      simp
  | cons p rest ih =>
      obtain ⟨node, lbl⟩ := p
      intro d c k h
      rw [gen_chan_aux] at h
      rcases hx : extract_code_from_label lbl with _ | code
      · rw [hx] at h; simp at h
      · rw [hx] at h
        rcases hcd : cent.degree.lookup node with _ | cd <;> rw [hcd] at h
        · simp at h
        · rcases hcc : cent.closeness.lookup node with _ | cc <;> rw [hcc] at h
          · simp at h
          · rcases hck : cent.katz.lookup node with _ | ck <;> rw [hck] at h
            · simp at h
            · rcases hr : gen_chan_aux cent embed rest with _ | trip <;> rw [hr] at h
              · simp at h
              · obtain ⟨ds, cs, ks⟩ := trip
                simp only [Option.some.injEq, Prod.mk.injEq] at h
                obtain ⟨hd, hc, hk⟩ := h
                subst hd; subst hc; subst hk
                obtain ⟨⟨l1, l2, l3⟩, m1, m2, m3⟩ := ih ds cs ks hr
                refine ⟨⟨by simp [l1], by simp [l2], by simp [l3]⟩, ?_, ?_, ?_⟩
                · intro v hv
                  rcases List.mem_cons.mp hv with hv | hv
                  · subst hv; simp [scale_vec, hD]
                  · exact m1 v hv
                · intro v hv
                  rcases List.mem_cons.mp hv with hv | hv
                  · subst hv; simp [scale_vec, hD]
                  · exact m2 v hv
                · intro v hv
                  rcases List.mem_cons.mp hv with hv | hv
                  · subst hv; simp [scale_vec, hD]
                  · exact m3 v hv

theorem labeled_length : ∀ (ns : List (String × Option String)),
    (∀ p ∈ ns, p.2 ≠ none) →
    (ns.filterMap (fun p => p.2.map (fun l => (p.1, l)))).length = ns.length := by
  intro ns
  induction ns with
  | nil => intro _; simp
  | cons p rest ih =>
      intro h
      rcases hp : p.2 with _ | l
      · exact absurd hp (h p (List.mem_cons_self p rest))
      · simp only [List.filterMap_cons, hp, Option.map_some', List.length_cons]
        rw [ih (fun q hq => h q (List.mem_cons_of_mem p hq))]

theorem labelsDict_length_of_all_labeled (g : PyGraph)
    (h : ∀ p ∈ g.nodes, p.2 ≠ none) :
    (labelsDict g).length = g.nodes.length :=
  labeled_length g.nodes h

/-- A Katz collaborator assigning score 1 to every node, used for concrete
evaluations. -/
def katz_one : PyGraph → List (String × ℚ) :=
  fun g => g.nodes.map (fun p => (p.1, 1))

/-- A dimension-1 embedding collaborator for concrete evaluations. -/
def embed_two : String → List ℚ := fun _ => [2]

/-- A one-node graph whose node carries no `label` attribute (as happens for
dot nodes only mentioned in edge statements). -/
def g_unlabeled : PyGraph := ⟨[("a", none)], []⟩

/-- C1, counterexample: a graph with `n = 1` nodes whose single node carries
no `label` attribute is processed successfully, yet every channel has length
`0`, not `n`.  The claim "each channel is a sequence of exactly n vectors
(one per graph node)" is false at this input. -/
theorem c1_channel_count_counterexample :
    image_generation katz_one embed_two (some g_unlabeled) = some ([], [], []) ∧
    g_unlabeled.nodes.length = 1 ∧
    (([] : List (List ℚ)).length ≠ 1) := by
  refine ⟨by decide, rfl, by decide⟩

/-- C1, amended: a successfully produced FeatureTensor has exactly 3 channels
(the result is a 3-tuple), each channel has one vector per *label-bearing*
node of the graph (which equals the node count whenever every node carries a
`label` attribute), and every vector has the embedding dimension `D`. -/
theorem c1_channels_match_labeled_nodes (g : PyGraph) (cent : Centralities)
    (embed : String → List ℚ) (D : Nat) (d c k : List (List ℚ))
    (hD : ∀ s, (embed s).length = D)
    (h : generate_channels g cent embed = some (d, c, k)) :
    (d.length = (labelsDict g).length ∧ c.length = (labelsDict g).length ∧
      k.length = (labelsDict g).length) ∧
    (∀ v ∈ d, v.length = D) ∧ (∀ v ∈ c, v.length = D) ∧
    (∀ v ∈ k, v.length = D) ∧
    ((∀ p ∈ g.nodes, p.2 ≠ none) → d.length = g.nodes.length) := by
  obtain ⟨hlen, h1, h2, h3⟩ :=
    gen_chan_aux_shape cent embed D hD (labelsDict g) d c k h
  exact ⟨hlen, h1, h2, h3,
    fun hall => hlen.1.trans (labelsDict_length_of_all_labeled g hall)⟩

/-- A one-node graph whose node carries a parsable label. -/
def g_labeled : PyGraph := ⟨[("a", some "(A,foo)Z")], []⟩

theorem g_labeled_eval :
    generate_channels g_labeled (calculate_centralities katz_one g_labeled)
      embed_two = some ([[2]], [[0]], [[2]]) := by
  norm_num [generate_channels, gen_chan_aux, labelsDict, g_labeled,
    extract_code_from_label, calculate_centralities, katz_one, embed_two,
    degree_centrality, closeness_centrality, nxDiGraph, node_ids, scale_vec,
    dists_to, bfs_layer, preds, List.lookup, take_before_nl, replace_static_void]

theorem c1_channels_match_labeled_nodes_witness :
    (∀ s, (embed_two s).length = 1) ∧
    generate_channels g_labeled (calculate_centralities katz_one g_labeled)
      embed_two = some ([[2]], [[0]], [[2]]) ∧
    (([[2]] : List (List ℚ)).length = (labelsDict g_labeled).length ∧
      ([[0]] : List (List ℚ)).length = (labelsDict g_labeled).length ∧
      ([[2]] : List (List ℚ)).length = (labelsDict g_labeled).length) ∧
    (∀ v ∈ ([[2]] : List (List ℚ)), v.length = 1) ∧
    (∀ v ∈ ([[0]] : List (List ℚ)), v.length = 1) ∧
    (∀ v ∈ ([[2]] : List (List ℚ)), v.length = 1) ∧
    ((∀ p ∈ g_labeled.nodes, p.2 ≠ none) →
      ([[2]] : List (List ℚ)).length = g_labeled.nodes.length) :=
  ⟨fun _ => rfl, g_labeled_eval,
    c1_channels_match_labeled_nodes g_labeled
      (calculate_centralities katz_one g_labeled) embed_two 1
      [[2]] [[0]] [[2]] (fun _ => rfl) g_labeled_eval⟩

theorem gen_chan_aux_index (cent : Centralities) (embed : String → List ℚ) :
    ∀ (ls : List (String × String)) (dl cl kl : List (List ℚ)) (i : Nat)
      (node lbl : String),
      gen_chan_aux cent embed ls = some (dl, cl, kl) →
      ls[i]? = some (node, lbl) →
      ∃ code cd cc ck,
        extract_code_from_label lbl = some code ∧
        cent.degree.lookup node = some cd ∧
        cent.closeness.lookup node = some cc ∧
        cent.katz.lookup node = some ck ∧
        dl[i]? = some (scale_vec cd (embed code)) ∧
        cl[i]? = some (scale_vec cc (embed code)) ∧
        kl[i]? = some (scale_vec ck (embed code)) := by
  intro ls
  induction ls with
  | nil => intro dl cl kl i node lbl _ hi; simp at hi
  | cons p rest ih =>
      obtain ⟨nd, lb⟩ := p
      intro dl cl kl i node lbl h hi
      rw [gen_chan_aux] at h
      rcases hx : extract_code_from_label lb with _ | code
      · rw [hx] at h; simp at h
      · rw [hx] at h
        rcases hcd : cent.degree.lookup nd with _ | cd <;> rw [hcd] at h
        · simp at h
        · rcases hcc : cent.closeness.lookup nd with _ | cc <;> rw [hcc] at h
          · simp at h
          · rcases hck : cent.katz.lookup nd with _ | ck <;> rw [hck] at h
            · simp at h
            · rcases hr : gen_chan_aux cent embed rest with _ | trip <;> rw [hr] at h
              · simp at h
              · obtain ⟨ds, cs, ks⟩ := trip
                simp only [Option.some.injEq, Prod.mk.injEq] at h
                obtain ⟨hd, hc, hk⟩ := h
                subst hd; subst hc; subst hk
                rcases i with _ | j
                · simp only [List.getElem?_cons_zero, Option.some.injEq,
                    Prod.mk.injEq] at hi
                  obtain ⟨hn, hl⟩ := hi
                  subst hn; subst hl
                  exact ⟨code, cd, cc, ck, hx, hcd, hcc, hck, by simp, by simp,
                    by simp⟩
                · simp only [List.getElem?_cons_succ] at hi
                  obtain ⟨code', cd', cc', ck', e1, e2, e3, e4, e5, e6, e7⟩ :=
                    ih ds cs ks j node lbl hr hi
                  exact ⟨code', cd', cc', ck', e1, e2, e3, e4, by simpa using e5,
                    by simpa using e6, by simpa using e7⟩

/-- C2, confirmed: for the `i`-th entry `(v, label)` of the graph's stable
node-label iteration order, each successfully produced channel holds at
position `i` the node's centrality score under that measure times the
embedding of the node's extracted snippet, elementwise: `degree` channel at
`i` is `degree(v) * embed(snippet)`, and analogously for `closeness` and
`katz`. -/
theorem c2_fusion_correctness (g : PyGraph) (cent : Centralities)
    (embed : String → List ℚ) (dl cl kl : List (List ℚ)) (i : Nat)
    (node lbl : String)
    (h : generate_channels g cent embed = some (dl, cl, kl))
    (hi : (labelsDict g)[i]? = some (node, lbl)) :
    ∃ code cd cc ck,
      extract_code_from_label lbl = some code ∧
      cent.degree.lookup node = some cd ∧
      cent.closeness.lookup node = some cc ∧
      cent.katz.lookup node = some ck ∧
      dl[i]? = some (scale_vec cd (embed code)) ∧
      cl[i]? = some (scale_vec cc (embed code)) ∧
      kl[i]? = some (scale_vec ck (embed code)) :=
  gen_chan_aux_index cent embed (labelsDict g) dl cl kl i node lbl h hi

theorem c2_fusion_correctness_witness :
    generate_channels g_labeled (calculate_centralities katz_one g_labeled)
      embed_two = some ([[2]], [[0]], [[2]]) ∧
    (labelsDict g_labeled)[0]? = some ("a", "(A,foo)Z") ∧
    (∃ code cd cc ck,
      extract_code_from_label "(A,foo)Z" = some code ∧
      (calculate_centralities katz_one g_labeled).degree.lookup "a" = some cd ∧
      (calculate_centralities katz_one g_labeled).closeness.lookup "a" = some cc ∧
      (calculate_centralities katz_one g_labeled).katz.lookup "a" = some ck ∧
      ([[2]] : List (List ℚ))[0]? = some (scale_vec cd (embed_two code)) ∧
      ([[0]] : List (List ℚ))[0]? = some (scale_vec cc (embed_two code)) ∧
      ([[2]] : List (List ℚ))[0]? = some (scale_vec ck (embed_two code))) :=
  ⟨g_labeled_eval, by decide,
    c2_fusion_correctness g_labeled (calculate_centralities katz_one g_labeled)
      embed_two [[2]] [[0]] [[2]] 0 "a" "(A,foo)Z" g_labeled_eval (by decide)⟩

theorem joern_export_pdg_toolRan (env : ExportEnv) :
    (joern_export_pdg env).toolRan = true := by
  unfold joern_export_pdg
  split
  · rfl
  · split
    · rfl
    · split
      · rfl
      · split <;> rfl

/-- Export environment in which the expected merged artifact already exists
on disk. -/
def env_c3 : ExportEnv :=
  ⟨true, true, true, [("f", some "digraph G \x7b\n\x7d".data)]⟩

/-- C3, counterexample: in the export stage, a stem absent from the record
file is processed even though its output artifact already exists — the
external tool is invoked, so artifact existence alone does not skip the
work (unlike the parse stage).  The claimed dual guard is false for the
export stage. -/
theorem c3_export_skip_counterexample :
    env_c3.artifactExists = true ∧
    ("x" ∈ ([] : List String)) = False ∧
    (export_step [] "x" env_c3).funcInvoked = true ∧
    (export_step [] "x" env_c3).toolRan = true := by
  refine ⟨rfl, by simp, by decide, by decide⟩

/-- C3, amended: the export stage skips a stem iff it is present in the
export ProcessingRecord — an existing export artifact is never consulted and
does not prevent invoking the external tool; the dual guard (record
membership or existing artifact) holds only for the parse stage, where an
existing `.bin` makes `joern_parse` return success without running the
tool. -/
theorem c3_export_record_guard_only (record : List String) (stem : String)
    (env : ExportEnv) (penv : ParseEnv) :
    ((export_step record stem env).funcInvoked = false ↔ stem ∈ record) ∧
    ((export_step record stem env).toolRan = true ↔ stem ∉ record) ∧
    ((parse_step record stem penv).funcInvoked = false ↔ stem ∈ record) ∧
    ((parse_step record stem penv).toolRan = true ↔
      (stem ∉ record ∧ penv.outExists = false)) := by
  by_cases hmem : stem ∈ record
  · simp [export_step, parse_step, process_file_step, hmem]
  · rcases penv with ⟨oe, tk⟩
    cases oe <;>
      simp [export_step, parse_step, process_file_step, hmem, joern_parse,
        joern_export_pdg_toolRan]

theorem readAll_eq_none_of_mem_none :
    ∀ (frags : List (String × Option (List Char))),
      (∃ p ∈ frags, p.2 = none) → readAll frags = none := by
  intro frags
  induction frags with
  | nil => intro h; obtain ⟨p, hp, _⟩ := h; simp at hp
  | cons q rest ih =>
      intro h
      obtain ⟨nm, c?⟩ := q
      rcases c? with _ | c
      · rfl
      · obtain ⟨p, hp, hnone⟩ := h
        rcases List.mem_cons.mp hp with hp | hp
        · subst hp
          simp at hnone
        · have hr := ih ⟨p, hp, hnone⟩
          simp only [readAll, hr]

/-- C6, confirmed: when the pdg export has produced a fragment directory and
reading one of the fragments fails, `joern_export` returns failure, the stem
is not appended to the export record, the fragment directory is not deleted,
and no complete merged artifact is produced. -/
theorem c6_merge_failure_preserves_state (record : List String) (stem : String)
    (env : ExportEnv) (hmem : stem ∉ record) (htool : env.toolOk = true)
    (hdir : env.outIsDir = true) (hfail : ∃ p ∈ env.frags, p.2 = none) :
    (export_step record stem env).funcInvoked = true ∧
    (export_step record stem env).record' = record ∧
    (export_step record stem env).dirDeleted = false ∧
    (export_step record stem env).merged = none := by
  have hne : env.frags ≠ [] := by
    obtain ⟨p, hp, _⟩ := hfail
    intro h0
    rw [h0] at hp
    simp at hp
  have hout : joern_export_pdg env = ⟨true, false, false, none⟩ := by
    unfold joern_export_pdg
    rw [htool, hdir]
    simp only [Bool.true_eq_false, if_false, if_neg hne]
    rw [readAll_eq_none_of_mem_none env.frags hfail]
  simp [export_step, hmem, hout]

/-- Export environment whose single fragment file fails to read. -/
def env_c6 : ExportEnv := ⟨false, true, true, [("f", none)]⟩

theorem c6_merge_failure_preserves_state_witness :
    ("x" ∉ (["y"] : List String)) ∧ env_c6.toolOk = true ∧
    env_c6.outIsDir = true ∧ (∃ p ∈ env_c6.frags, p.2 = none) ∧
    ((export_step ["y"] "x" env_c6).funcInvoked = true ∧
      (export_step ["y"] "x" env_c6).record' = ["y"] ∧
      (export_step ["y"] "x" env_c6).dirDeleted = false ∧
      (export_step ["y"] "x" env_c6).merged = none) :=
  ⟨by decide, rfl, rfl, ⟨("f", none), by decide, rfl⟩,
    c6_merge_failure_preserves_state ["y"] "x" env_c6 (by decide) rfl rfl
      ⟨("f", none), by decide, rfl⟩⟩

/-- C7, counterexample: with the shared `graph-for-funcs.sc` script absent,
a two-item lineinfo_json export batch still iterates both items — neither is
recorded, each fails individually, and the batch is not aborted.  The claim
that a missing script resource is fatal to the entire batch is false. -/
theorem c7_missing_script_counterexample :
    runJsonBatch ⟨false, true⟩ [] ["a", "b"] = ([], 2) ∧
    (json_step [] "a" ⟨false, true⟩).toolRan = false ∧
    (json_step [] "b" ⟨false, true⟩).toolRan = false := by
  refine ⟨by decide, by decide, by decide⟩

/-- C7, amended: a missing script file for lineinfo_json export is handled as
a per-item failure, not a batch-fatal error: for every item the scripted tool
is not invoked and the stem is not recorded, and the batch still iterates
every input item, leaving the record unchanged. -/
theorem c7_missing_script_per_item (env : JsonEnv)
    (hscript : env.scriptExists = false) :
    (∀ (record : List String) (stem : String),
      (json_step record stem env).toolRan = false ∧
      (json_step record stem env).record' = record) ∧
    (∀ (record stems : List String),
      runJsonBatch env record stems = (record, stems.length)) := by
  have hstep : ∀ (record : List String) (stem : String),
      (json_step record stem env).toolRan = false ∧
      (json_step record stem env).record' = record := by
    intro record stem
    by_cases hmem : stem ∈ record <;>
      simp [json_step, process_file_step, joern_export_json, hscript, hmem]
  refine ⟨hstep, ?_⟩
  intro record stems
  induction stems generalizing record with
  | nil => rfl
  | cons stem rest ih =>
      rw [runJsonBatch, (hstep record stem).2, ih record]
      simp

theorem c7_missing_script_per_item_witness :
    ((⟨false, true⟩ : JsonEnv).scriptExists = false) ∧
    (json_step ["z"] "a" ⟨false, true⟩).toolRan = false ∧
    (json_step ["z"] "a" ⟨false, true⟩).record' = ["z"] ∧
    runJsonBatch ⟨false, true⟩ ["z"] ["a", "b"] = (["z"], 2) :=
  ⟨rfl, ((c7_missing_script_per_item ⟨false, true⟩ rfl).1 ["z"] "a").1,
    ((c7_missing_script_per_item ⟨false, true⟩ rfl).1 ["z"] "a").2,
    (c7_missing_script_per_item ⟨false, true⟩ rfl).2 ["z"] ["a", "b"]⟩

theorem lookup_append_single_ne {α β : Type} [BEq α] [LawfulBEq α]
    (l : List (α × β)) (k s : α) (a : β) (h : k ≠ s) :
    List.lookup k (l ++ [(s, a)]) = List.lookup k l := by
  induction l with
  | nil =>
      simp only [List.nil_append, List.lookup]
      rw [show (k == s) = false by simpa using h]
  | cons x xs ih =>
      obtain ⟨x1, x2⟩ := x
      by_cases hx : k = x1
      · subst hx; simp [List.lookup]
      · simp only [List.cons_append, List.lookup]
        rw [show (k == x1) = false by simpa using hx]
        exact ih

theorem run_feature_aux_lookup_preserved (katz : PyGraph → List (String × ℚ))
    (embed : String → List ℚ) (parse : String → Option PyGraph)
    (existing : List String) (stem : String) (hstem : stem ∈ existing) :
    ∀ (inputs : List String) (acc : List (String × Channels)),
      List.lookup stem (run_feature_aux katz embed parse existing inputs acc) =
        List.lookup stem acc := by
  intro inputs
  induction inputs with
  | nil => intro acc; rfl
  | cons s rest ih =>
      intro acc
      by_cases hs : s ∈ existing
      · have hskip : write_to_pkl katz embed (parse s) s existing =
            ⟨false, 0, none⟩ := by
          simp [write_to_pkl, hs]
        rw [run_feature_aux, hskip]
        exact ih acc
      · have hne : stem ≠ s := fun he => hs (he ▸ hstem)
        rw [run_feature_aux]
        rcases hw : (write_to_pkl katz embed (parse s) s existing).written
          with _ | a
        · exact ih acc
        · rw [ih (acc ++ [(s, a)])]
          exact lookup_append_single_ne acc stem s a hne

/-- C9, confirmed: if the output artifact for stem `X` already exists when
the run starts, the worker for `X` does no work — it does not parse the
graph, invokes the embedding model zero times and writes nothing — and a
full run leaves the artifact stored for `X` unchanged. -/
theorem c9_skip_existing_artifact (katz : PyGraph → List (String × ℚ))
    (embed : String → List ℚ) (parse : String → Option PyGraph)
    (inputs : List String) (fs : List (String × Channels)) (stem : String)
    (h : stem ∈ fs.map Prod.fst) :
    write_to_pkl katz embed (parse stem) stem (fs.map Prod.fst) =
      ⟨false, 0, none⟩ ∧
    List.lookup stem (process_files katz embed parse inputs fs) =
      List.lookup stem fs := by
  refine ⟨by simp [write_to_pkl, h], ?_⟩
  exact run_feature_aux_lookup_preserved katz embed parse (fs.map Prod.fst)
    stem h inputs fs

/-- A graph-extraction collaborator for which every dot file is unparsable. -/
def parse_none : String → Option PyGraph := fun _ => none

/-- An output directory that already holds an artifact for stem `s`. -/
def fs_c9 : List (String × Channels) := [("s", ([], [], []))]

theorem c9_skip_existing_artifact_witness :
    ("s" ∈ fs_c9.map Prod.fst) ∧
    write_to_pkl katz_one embed_two (parse_none "s") "s" (fs_c9.map Prod.fst) =
      ⟨false, 0, none⟩ ∧
    List.lookup "s" (process_files katz_one embed_two parse_none ["s", "t"] fs_c9) =
      List.lookup "s" fs_c9 :=
  ⟨by decide,
    (c9_skip_existing_artifact katz_one embed_two parse_none ["s", "t"] fs_c9
      "s" (by decide)).1,
    (c9_skip_existing_artifact katz_one embed_two parse_none ["s", "t"] fs_c9
      "s" (by decide)).2⟩

/-- C10, confirmed (error atomicity of the normalize step): the file is
opened for writing only after read, comment removal and gadget
canonicalization have all succeeded, so a failing read, a missing file, or a
`clean_gadget` exception leaves the file system unchanged.  (Comment removal
itself is a pure total transformation in the model; the claim's condition on
it is vacuous.) -/
theorem c10_normalize_error_atomicity (env : NormEnv)
    (fs : List (String × String)) (path : String) :
    (env.readOk = false → process_file_norm env fs path = fs) ∧
    (fs.lookup path = none → process_file_norm env fs path = fs) ∧
    (∀ code, fs.lookup path = some code →
      env.clean (pySplitlines (remove_comments code).data) = none →
      process_file_norm env fs path = fs) := by
  refine ⟨?_, ?_, ?_⟩
  · intro h
    simp [process_file_norm, h]
  · intro h
    cases hro : env.readOk <;> simp [process_file_norm, hro, h]
  · intro code hcode hclean
    cases hro : env.readOk
    · simp [process_file_norm, hro]
    · simp [process_file_norm, hro, hcode, hclean]

/-- A normalize environment whose `clean_gadget` collaborator always
raises. -/
def env_clean_fails : NormEnv := ⟨true, fun _ => none⟩

/-- A normalize environment whose read raises. -/
def env_read_fails : NormEnv := ⟨false, fun ls => some ls⟩

theorem c10_normalize_error_atomicity_witness :
    env_read_fails.readOk = false ∧
    process_file_norm env_read_fails [("a", "x // y")] "a" = [("a", "x // y")] ∧
    env_clean_fails.clean
      (pySplitlines (remove_comments "x // y").data) = none ∧
    process_file_norm env_clean_fails [("a", "x // y")] "a" = [("a", "x // y")] ∧
    process_file_norm env_clean_fails [("a", "x // y")] "b" = [("a", "x // y")] :=
  ⟨rfl,
    (c10_normalize_error_atomicity env_read_fails [("a", "x // y")] "a").1 rfl,
    rfl,
    (c10_normalize_error_atomicity env_clean_fails [("a", "x // y")] "a").2.2
      "x // y" (by decide) rfl,
    (c10_normalize_error_atomicity env_clean_fails [("a", "x // y")] "b").2.1
      (by decide)⟩

/-- A two-node graph with reciprocal arcs `a → b` and `b → a`, as a digraph
dot file with both edge statements loads. -/
def g_twocycle : PyGraph :=
  ⟨[("a", none), ("b", none)], [("a", "b"), ("b", "a")]⟩

/-- C5, counterexample: on the reciprocal two-node digraph, the engine's
degree centrality for `a` is `2` (in-degree plus out-degree of the loaded
directed graph), while degree centrality over the undirected view of the
same node/edge set is `1` — so degree (and likewise closeness) is *not*
computed over an undirected view. -/
theorem c5_undirected_view_counterexample :
    (calculate_centralities katz_one g_twocycle).degree.lookup "a" = some 2 ∧
    (degree_centrality_undirected g_twocycle).lookup "a" = some 1 ∧
    (2 : ℚ) ≠ 1 := by
  refine ⟨?_, ?_, by norm_num⟩
  · norm_num [calculate_centralities, degree_centrality, node_ids, g_twocycle,
      out_deg, in_deg, List.lookup, List.filter]
    simp only [show (decide ("b" = "a")) = false from rfl]
    norm_num
  · norm_num [degree_centrality_undirected, node_ids, g_twocycle, List.lookup,
      List.filter]
    simp only [show (decide ("a" = "b")) = false from rfl]
    rfl

/-- C5, amended: `calculate_centralities` computes degree and closeness
centrality over the graph exactly as loaded (the directed multigraph of the
dot file — degree counts in-plus-out arcs with multiplicity, closeness uses
incoming shortest-path distances), not over an undirected view; Katz
centrality is computed over the simplified directed view `nx.DiGraph(graph)`
with the same node set and the same arc set up to collapsing parallel arcs;
all three mappings are keyed by the graph's node identifiers. -/
theorem c5_centralities_views (katz : PyGraph → List (String × ℚ))
    (g : PyGraph) :
    (calculate_centralities katz g).degree = degree_centrality g ∧
    (calculate_centralities katz g).closeness = closeness_centrality g ∧
    (calculate_centralities katz g).katz = katz (nxDiGraph g) ∧
    (degree_centrality g).map Prod.fst = node_ids g ∧
    (closeness_centrality g).map Prod.fst = node_ids g ∧
    (nxDiGraph g).nodes = g.nodes ∧
    (∀ e, e ∈ (nxDiGraph g).edges ↔ e ∈ g.edges) ∧
    (nxDiGraph g).edges.Nodup := by
  refine ⟨rfl, rfl, rfl, ?_, ?_, rfl, ?_, ?_⟩
  · unfold degree_centrality
    split <;> simp [node_ids, List.map_map, Function.comp]
  · simp [closeness_centrality, node_ids, List.map_map, Function.comp]
  · intro e
    exact List.mem_dedup
  · exact g.edges.nodup_dedup

theorem replaceFirst_self_prefix (pat rest : List Char) (h : pat ≠ []) :
    replaceFirst pat (pat ++ rest) = rest := by
  rcases pat with _ | ⟨p, ps⟩
  · exact absurd rfl h
  · rw [List.cons_append, replaceFirst, if_pos, ← List.cons_append,
      List.drop_left]
    rw [← List.cons_append]
    exact List.isPrefixOf_iff_prefix.mpr (List.prefix_append _ _)

theorem dropWhile_append_of_all (p : Char → Bool) :
    ∀ (a b : List Char), (∀ c ∈ a, p c = true) →
      List.dropWhile p (a ++ b) = List.dropWhile p b := by
  intro a
  induction a with
  | nil => intro b _; rfl
  | cons x xs ih =>
      intro b h
      rw [List.cons_append, List.dropWhile_cons,
        if_pos (h x (List.mem_cons_self x xs))]
      exact ih b (fun c hc => h c (List.mem_cons_of_mem x hc))

theorem beforeLastBrace_spec (body trail : List Char) (h : '\x7d' ∉ trail) :
    beforeLastBrace (body ++ '\x7d' :: trail) = body := by
  unfold beforeLastBrace
  rw [if_pos (by simp)]
  rw [List.reverse_append, List.reverse_cons]
  rw [List.append_assoc]
  rw [dropWhile_append_of_all _ trail.reverse _ ?hall]
  case hall =>
    intro c hc
    have hcm : c ∈ trail := List.mem_reverse.mp hc
    have : c ≠ '\x7d' := fun he => h (he ▸ hcm)
    simpa using this
  rw [List.singleton_append, List.dropWhile_cons]
  rw [if_neg (by simp)]
  simp

theorem stripFragment_wrapped (body trail : List Char) (h : '\x7d' ∉ trail) :
    stripFragment (dotHeader ++ body ++ '\x7d' :: trail) = body := by
  unfold stripFragment
  rw [List.append_assoc, replaceFirst_self_prefix dotHeader _ (by decide)]
  exact beforeLastBrace_spec body trail h

theorem braceDelta_append (a b : List Char) :
    braceDelta (a ++ b) = braceDelta a + braceDelta b := by
  simp only [braceDelta, List.count_append]
  push_cast
  ring

theorem braceDelta_flatten : ∀ (ls : List (List Char)),
    braceDelta ls.flatten = (ls.map braceDelta).sum := by
  intro ls
  induction ls with
  | nil => rfl
  | cons a rest ih =>
      rw [List.flatten_cons, braceDelta_append, ih, List.map_cons,
        List.sum_cons]

theorem braceDelta_subgraphBlock (stem : String) (body : List Char)
    (h1 : '\x7b' ∉ stem.data) (h2 : '\x7d' ∉ stem.data)
    (hb : braceDelta body = 0) : braceDelta (subgraphBlock stem body) = 0 := by
  unfold subgraphBlock
  rw [braceDelta_append, braceDelta_append, String.data_append,
    String.data_append, braceDelta_append, braceDelta_append]
  have hstem : braceDelta stem.data = 0 := by
    simp only [braceDelta, List.count_eq_zero.mpr h1, List.count_eq_zero.mpr h2]
    rfl
  rw [hstem, hb]
  decide

/-- C4, confirmed: merging `k` well-formed fragments (each of the shape
`digraph G \x7b <body> \x7d <brace-free trail>` with a brace-balanced body,
and a brace-free stem) yields the single top-level wrapper
`digraph G \x7b\n ... \x7d` containing exactly `k` subgraph blocks — one per
fragment, keyed by the fragment's stem, with the fragment's outer wrapper
stripped so the block holds exactly the fragment's body — and the whole
merged artifact has balanced wrapper tokens. -/
theorem c4_merge_well_formed (parts : List (String × List Char × List Char))
    (hne : parts ≠ [])
    (hwf : ∀ q ∈ parts, '\x7d' ∉ q.2.2 ∧ braceDelta q.2.1 = 0)
    (hstem : ∀ q ∈ parts, '\x7b' ∉ q.1.data ∧ '\x7d' ∉ q.1.data) :
    mergePdg (parts.map (fun q => (q.1, dotHeader ++ q.2.1 ++ '\x7d' :: q.2.2)))
        = "digraph G \x7b\n".data
          ++ (parts.map (fun q => subgraphBlock q.1 q.2.1)).flatten
          ++ ['\x7d'] ∧
    (parts.map (fun q => subgraphBlock q.1 q.2.1)).length = parts.length ∧
    braceDelta (mergePdg (parts.map
      (fun q => (q.1, dotHeader ++ q.2.1 ++ '\x7d' :: q.2.2)))) = 0 := by
  have hmap : (parts.map (fun q => (q.1, dotHeader ++ q.2.1 ++ '\x7d' :: q.2.2))).map
        (fun p => ("subgraph cluster_" ++ p.1 ++ " \x7b\n").data
          ++ stripFragment p.2 ++ "\n\x7d\n".data)
      = parts.map (fun q => subgraphBlock q.1 q.2.1) := by
    rw [List.map_map]
    apply List.map_congr_left
    intro q hq
    obtain ⟨ht, _⟩ := hwf q hq
    simp only [Function.comp]
    rw [stripFragment_wrapped q.2.1 q.2.2 ht]
    rfl
  have hmerge : mergePdg (parts.map
        (fun q => (q.1, dotHeader ++ q.2.1 ++ '\x7d' :: q.2.2)))
      = "digraph G \x7b\n".data
        ++ (parts.map (fun q => subgraphBlock q.1 q.2.1)).flatten
        ++ ['\x7d'] := by
    unfold mergePdg
    rw [hmap]
  refine ⟨hmerge, by simp, ?_⟩
  rw [hmerge, braceDelta_append, braceDelta_append, braceDelta_flatten,
    List.map_map]
  have hz : (parts.map (braceDelta ∘ fun q => subgraphBlock q.1 q.2.1)).sum
      = 0 := by
    apply List.sum_eq_zero
    intro x hx
    obtain ⟨q, hq, hxe⟩ := List.mem_map.mp hx
    obtain ⟨h1, h2⟩ := hstem q hq
    obtain ⟨_, hb⟩ := hwf q hq
    rw [← hxe]
    exact braceDelta_subgraphBlock q.1 q.2.1 h1 h2 hb
  rw [hz]
  decide

/-- Two concrete well-formed pdg fragments (stem, body, trail). -/
def parts_c4 : List (String × List Char × List Char) :=
  [("f1", ("A;".data, ['\n'])), ("f2", ("B -> C;".data, []))]

theorem c4_merge_well_formed_witness :
    parts_c4 ≠ [] ∧
    (∀ q ∈ parts_c4, '\x7d' ∉ q.2.2 ∧ braceDelta q.2.1 = 0) ∧
    (∀ q ∈ parts_c4, '\x7b' ∉ q.1.data ∧ '\x7d' ∉ q.1.data) ∧
    (mergePdg (parts_c4.map
        (fun q => (q.1, dotHeader ++ q.2.1 ++ '\x7d' :: q.2.2)))
        = "digraph G \x7b\n".data
          ++ (parts_c4.map (fun q => subgraphBlock q.1 q.2.1)).flatten
          ++ ['\x7d'] ∧
      (parts_c4.map (fun q => subgraphBlock q.1 q.2.1)).length
        = parts_c4.length ∧
      braceDelta (mergePdg (parts_c4.map
        (fun q => (q.1, dotHeader ++ q.2.1 ++ '\x7d' :: q.2.2)))) = 0) :=
  ⟨by decide, by decide, by decide,
    c4_merge_well_formed parts_c4 (by decide) (by decide) (by decide)⟩

/-- Whether the two-character sequence `/` `*` (a block-comment opener)
occurs in the list. -/
def hasOpen : List Char → Bool
  | [] => false
  | c :: cs => (c = '/' ∧ cs.head? = some '*' : Bool) || hasOpen cs

theorem splitAtStarSlash_clean :
    ∀ (m rest : List Char), hasSS m = false →
      splitAtStarSlash (m ++ '*' :: '/' :: rest) = some (m, rest) := by
  intro m
  induction m with
  | nil =>
      intro rest _
      rw [List.nil_append, splitAtStarSlash, if_pos (by simp)]
      rfl
  | cons x xs ih =>
      intro rest hm
      rw [hasSS] at hm
      have hx : ¬(x = '*' ∧ xs.head? = some '/') := by
        intro hc
        simp [hc.1, hc.2] at hm
      have hxs : hasSS xs = false := by
        rcases Bool.or_eq_false_iff.mp hm with ⟨_, h2⟩
        exact h2
      have hcond : ¬(x = '*' ∧ (xs ++ '*' :: '/' :: rest).head? = some '/') := by
        rcases xs with _ | ⟨y, ys⟩
        · simp
        · intro hc
          exact hx ⟨hc.1, by simpa using hc.2⟩
      rw [List.cons_append, splitAtStarSlash, if_neg hcond, ih rest hxs]
      rfl

theorem subBlockComments_deletes :
    ∀ (p m rest : List Char), hasOpen p = false → hasSS m = false →
      subBlockComments (p ++ '/' :: '*' :: (m ++ '*' :: '/' :: rest))
        = p ++ subBlockComments rest := by
  intro p
  induction p with
  | nil =>
      intro m rest _ hm
      rw [List.nil_append, subBlockComments, if_pos (by simp)]
      split
      · rename_i q heq
        simp only [List.drop_one, List.tail_cons] at heq
        rw [splitAtStarSlash_clean m rest hm] at heq
        cases heq
        rfl
      · rename_i heq
        simp only [List.drop_one, List.tail_cons] at heq
        rw [splitAtStarSlash_clean m rest hm] at heq
        cases heq
  | cons x xs ih =>
      intro m rest hp hm
      rw [hasOpen] at hp
      have hx : ¬(x = '/' ∧ xs.head? = some '*') := by
        intro hc
        simp [hc.1, hc.2] at hp
      have hxs : hasOpen xs = false := by
        rcases Bool.or_eq_false_iff.mp hp with ⟨_, h2⟩
        exact h2
      have hcond : ¬(x = '/' ∧
          (xs ++ '/' :: '*' :: (m ++ '*' :: '/' :: rest)).head? = some '*') := by
        rcases xs with _ | ⟨y, ys⟩
        · simp
        · intro hc
          exact hx ⟨hc.1, by simpa using hc.2⟩
      rw [List.cons_append, subBlockComments, if_neg hcond, ih m rest hxs hm,
        List.cons_append]

theorem subLineGo_splits_at_newline :
    ∀ (line : List Char) (prev : Option Char) (rest : List Char),
      '\n' ∉ line →
      subLineGo prev (line ++ '\n' :: rest)
        = lineCommentRule prev line ++ '\n' :: subLineGo (some '\n') rest := by
  intro line
  induction line with
  | nil =>
      intro prev rest _
      rw [List.nil_append, subLineGo, if_neg (by simp), lineCommentRule,
        List.nil_append]
  | cons c cs ih =>
      intro prev rest hn
      have hncs : '\n' ∉ cs := fun hm => hn (List.mem_cons_of_mem c hm)
      have hcne : c ≠ '\n' := fun he => hn (he ▸ List.mem_cons_self c cs)
      by_cases hcond : c = '/' ∧ cs.head? = some '/' ∧ prev ≠ some ':'
      · have hcond' : c = '/' ∧ (cs ++ '\n' :: rest).head? = some '/' ∧
            prev ≠ some ':' := by
          rcases cs with _ | ⟨d, ds⟩
          · rcases hcond with ⟨_, h2, _⟩
            simp at h2
          · exact ⟨hcond.1, by simpa using hcond.2.1, hcond.2.2⟩
        rw [List.cons_append, subLineGo, if_pos hcond']
        rw [dropWhile_append_of_all _ cs _ ?hcs]
        case hcs =>
          intro d hd
          have : d ≠ '\n' := fun he => hncs (he ▸ hd)
          simpa using this
        rw [List.dropWhile_cons, if_neg (by simp)]
        rw [subLineGo, if_neg (by simp)]
        rw [lineCommentRule, if_pos hcond, List.nil_append]
      · have hcond' : ¬(c = '/' ∧ (cs ++ '\n' :: rest).head? = some '/' ∧
            prev ≠ some ':') := by
          rcases cs with _ | ⟨d, ds⟩
          · intro hc
            rcases hc with ⟨_, h2, _⟩
            simp at h2
          · intro hc
            exact hcond ⟨hc.1, by simpa using hc.2.1, hc.2.2⟩
        rw [List.cons_append, subLineGo, if_neg hcond', ih (some c) rest hncs,
          lineCommentRule, if_neg hcond, List.cons_append]

theorem subLineGo_last_line :
    ∀ (line : List Char) (prev : Option Char), '\n' ∉ line →
      subLineGo prev line = lineCommentRule prev line := by
  intro line
  induction line with
  | nil =>
      intro prev _
      rw [subLineGo]
      rfl
  | cons c cs ih =>
      intro prev hn
      have hncs : '\n' ∉ cs := fun hm => hn (List.mem_cons_of_mem c hm)
      by_cases hcond : c = '/' ∧ cs.head? = some '/' ∧ prev ≠ some ':'
      · rw [subLineGo, if_pos hcond, lineCommentRule, if_pos hcond]
        have : cs.dropWhile (fun d => d != '\n') = [] := by
          rw [List.dropWhile_eq_nil_iff]
          intro d hd
          have : d ≠ '\n' := fun he => hncs (he ▸ hd)
          simpa using this
        rw [this, subLineGo]
      · rw [subLineGo, if_neg hcond, lineCommentRule, if_neg hcond,
          ih (some c) hncs]

/-- C8, confirmed: the single-line pass deletes, on every line independently
(deletion never crosses a newline), the suffix starting at the line's first
`//` marker not immediately preceded by a colon — `lineCommentRule` is the
spec-side per-line statement of that rule; the block pass deletes a block
comment opened by `/*` by matching it to the nearest following `*/`
(non-greedy, `m` contains no earlier `*/`), even when the body spans line
boundaries, keeping an opener-free prefix intact and continuing after the
match; `remove_comments` is the line pass, then the block pass, then
`strip()`. -/
theorem c8_comment_removal_rules :
    (∀ (prev : Option Char) (line rest : List Char), '\n' ∉ line →
      subLineGo prev (line ++ '\n' :: rest)
        = lineCommentRule prev line ++ '\n' :: subLineGo (some '\n') rest) ∧
    (∀ (prev : Option Char) (line : List Char), '\n' ∉ line →
      subLineGo prev line = lineCommentRule prev line) ∧
    (∀ (p m rest : List Char), hasOpen p = false → hasSS m = false →
      subBlockComments (p ++ '/' :: '*' :: (m ++ '*' :: '/' :: rest))
        = p ++ subBlockComments rest) ∧
    (∀ s : String,
      remove_comments s = ⟨pyStrip (subBlockComments (subLineComments s.data))⟩) :=
  ⟨fun prev line rest h => subLineGo_splits_at_newline line prev rest h,
    fun prev line h => subLineGo_last_line line prev h,
    subBlockComments_deletes,
    fun _ => rfl⟩

theorem c8_comment_removal_rules_witness :
    ('\n' ∉ "a:// u //v".data) ∧
    subLineGo none ("a:// u //v".data ++ '\n' :: "z".data)
      = lineCommentRule none "a:// u //v".data
        ++ '\n' :: subLineGo (some '\n') "z".data ∧
    hasOpen "int x; ".data = false ∧
    hasSS " a\nb ".data = false ∧
    subBlockComments ("int x; ".data
        ++ '/' :: '*' :: (" a\nb ".data ++ '*' :: '/' :: " y".data))
      = "int x; ".data ++ subBlockComments " y".data ∧
    remove_comments "w" = ⟨pyStrip (subBlockComments (subLineComments "w".data))⟩ :=
  ⟨by decide,
    c8_comment_removal_rules.1 none "a:// u //v".data "z".data (by decide),
    by decide, by decide,
    c8_comment_removal_rules.2.2.1 "int x; ".data " a\nb ".data " y".data
      (by decide) (by decide),
    c8_comment_removal_rules.2.2.2 "w"⟩
